import Mathlib

/-
  Verification of the schema cache and lookup component of the shopify-mcp
  repository. The definitions below are shallow embeddings of the TypeScript
  source:
    - src/tools/shopify-schema.ts   (class ShopifySchema: loadSchema,
      getTypeFields, fieldExists, getTypes)
    - src/shopify-schema.ts         (the legacy revision of ShopifySchema)
    - src/tools/schema-cache.ts     (class SchemaCache: getSchema, setSchema)
    - the explorer helper checkField (levenshteinDistance, similarFields,
      the US/UK spelling suggestion table)
  File system state, the network introspection call and JSON serialization
  are modelled explicitly as state and environment records; machine strings
  are Lean String values and JS arrays are Lean lists.
-/

/-! ## Levenshtein distance, from function levenshteinDistance -/

/--
Inner loop of the matrix fill in levenshteinDistance: given the character
bc of b for the current row, the remaining characters of a, the entry of the
previous row one column to the left (diag), the remaining entries of the
previous row (starting at the current column), and the entry of the current
row one column to the left, produce the remaining entries of the current row.
Each entry is
  min(matrix[i-1][j] + 1, matrix[i][j-1] + 1, matrix[i-1][j-1] + cost)
with cost 0 when the characters match and 1 otherwise, exactly as in the
source fill loop.
-/
def levRowAux (bc : Char) : List Char → Nat → List Nat → Nat → List Nat
  | [], _, _, _ => []
  | _ :: _, _, [], _ => []
  | ac :: arest, diag, up :: prest, left =>
    let cost : Nat := if ac = bc then 0 else 1
    let cur := min (up + 1) (min (left + 1) (diag + cost))
    cur :: levRowAux bc arest up prest cur

/--
One full row of the matrix in levenshteinDistance: the row for index i
starts with the value i (column 0 is initialized to its index; the head of
the previous row is i - 1) and continues with the filled entries.
-/
def levRow (bc : Char) (a : List Char) (prev : List Nat) : List Nat :=
  match prev with
  | [] => []
  | p0 :: prest => (p0 + 1) :: levRowAux bc a p0 prest (p0 + 1)

/--
The fill loop of levenshteinDistance: fold over the characters of b,
producing the final row of the matrix from row 0.
-/
def levRows (a : List Char) : List Char → List Nat → List Nat
  | [], prev => prev
  | bc :: brest, prev => levRows a brest (levRow bc a prev)

/--
function levenshteinDistance(a, b) from the explorer helper: builds the
(b.length + 1) x (a.length + 1) dynamic-programming matrix with row 0 and
column 0 initialized to their index values and returns the bottom-right
cell matrix[b.length][a.length]. Implemented row by row, which computes the
same matrix entries as the imperative double loop of the source.
-/
def levenshteinDistance (a b : String) : Nat :=
  (levRows a.toList b.toList (List.range (a.toList.length + 1))).getLastD 0

/--
Specification-side definition of the matrix of the classic
dynamic-programming Levenshtein distance, cell by cell, following the words
of the specification: row 0 and column 0 hold their index values, and cell
(i + 1, j + 1) is the minimum of the deletion, insertion and substitution
alternatives, where the substitution cost is 0 exactly when character j of a
equals character i of b. The claim theorem relates levenshteinDistance to
the bottom-right cell of this matrix.
-/
def levCell (a b : List Char) : Nat → Nat → Nat
  | 0, j => j
  | i + 1, 0 => i + 1
  | i + 1, j + 1 =>
    let cost : Nat := if a[j]? = b[i]? then 0 else 1
    min (levCell a b i (j + 1) + 1)
      (min (levCell a b (i + 1) j + 1) (levCell a b i j + cost))
termination_by i j => (i, j)

/-! ## String helpers used by checkField (JS semantics) -/

/-- JS String.prototype.includes: substring containment. -/
def jsIncludes (s pat : String) : Bool :=
  decide (pat.toList <:+: s.toList)

/-- JS String.prototype.startsWith: prefix test. -/
def jsStartsWith (s pat : String) : Bool :=
  decide (pat.toList <+: s.toList)

/--
JS String.prototype.replace with a string pattern replaces only the first
occurrence of the pattern (and returns the input unchanged when the pattern
does not occur). This is the character-list worker.
-/
def replaceFirstAux (pat rep : List Char) : List Char → List Char
  | [] => if pat = [] then rep else []
  | c :: rest =>
    if pat <+: (c :: rest) then rep ++ (c :: rest).drop pat.length
    else c :: replaceFirstAux pat rep rest

/-- JS s.replace(pat, rep) for string patterns: replace the first occurrence. -/
def jsReplaceFirst (s pat rep : String) : String :=
  ⟨replaceFirstAux pat.toList rep.toList s.toList⟩

/--
JS String.prototype.toLowerCase, character by character (field names are
ASCII, where the two functions agree).
-/
def jsToLowerCase (s : String) : String :=
  ⟨s.toList.map Char.toLower⟩

/--
The decimal digit expansion of a natural number, most significant digit
first, written with explicit fuel so that it is structurally recursive;
fuel n + 1 always suffices. Models the decimal numerals JS produces for
array indices.
-/
def decimalDigitsAux : Nat → Nat → List Char
  | 0, _ => []
  | fuel + 1, n =>
    if n < 10 then [Nat.digitChar n]
    else decimalDigitsAux fuel (n / 10) ++ [Nat.digitChar (n % 10)]

/-- JS String(i) for a natural number: its decimal numeral. -/
def jsString (n : Nat) : String :=
  ⟨decimalDigitsAux (n + 1) n⟩

/--
JS Object.keys applied to an array of the given length: the list of its
index strings, in order. This is what checkField computes into its
variable fieldNames, because every revision of getTypeFields returns an
array and Object.keys on an array yields the indices, never field names.
-/
def jsObjectKeys (len : Nat) : List String :=
  (List.range len).map jsString

/-- The ten decimal digit characters. -/
def digitChars : List Char :=
  ['0', '1', '2', '3', '4', '5', '6', '7', '8', '9']

namespace CheckField

/--
The fixed table of US/UK spelling variant pairs from checkField
(variable commonReplacements in the source), in source order.
-/
def commonReplacements : List (String × String) :=
  [("color", "colour"),
   ("canceled", "cancelled"),
   ("center", "centre"),
   ("customize", "customise"),
   ("favorite", "favourite"),
   ("fulfill", "fulfil"),
   ("program", "programme"),
   ("license", "licence")]

/--
The comparator used on the candidate records by the sort in checkField:
the JS comparator (a, b) => a.distance - b.distance sorts ascending by
distance, and JS Array.prototype.sort is stable.
-/
def distanceLE (x y : String × Nat) : Prop :=
  x.2 ≤ y.2

instance : DecidableRel distanceLE :=
  fun x y => inferInstanceAs (Decidable (x.2 ≤ y.2))

instance : IsTotal (String × Nat) distanceLE :=
  ⟨fun x y => Nat.le_total x.2 y.2⟩

instance : IsTrans (String × Nat) distanceLE :=
  ⟨fun _ _ _ h h2 => Nat.le_trans h h2⟩

/--
The candidate pipeline of checkField over a given pool of names: pair each
name with its case-insensitive Levenshtein distance from the looked-up
name, keep distances of at most 3, sort ascending by distance (stably, as
JS sort is; List.insertionSort is a stable sort and therefore computes the
same sequence), keep the first 5, and return the names. The program feeds
this pipeline the pool jsObjectKeys of the fields array; see similarFields
below.
-/
def similarFieldsOver (fieldNames : List String) (fieldName : String) : List String :=
  ((((fieldNames.map fun name =>
        (name, levenshteinDistance (jsToLowerCase name) (jsToLowerCase fieldName))).filter
      fun f => decide (f.2 ≤ 3)).insertionSort distanceLE).take 5).map Prod.fst

/--
The spelling-variant loop of checkField over an explicit table: for each
pair the US member is tried first, then the UK member; the loop stops at the
first member whose occurrence in the looked-up name, when its first
occurrence is substituted by the other member, yields an actual field name.
-/
def suggestionAux (fieldNames : List String) (fieldName : String) :
    List (String × String) → Option String
  | [] => none
  | (us, uk) :: rest =>
    if jsIncludes fieldName us && fieldNames.contains (jsReplaceFirst fieldName us uk) then
      some (jsReplaceFirst fieldName us uk)
    else if jsIncludes fieldName uk && fieldNames.contains (jsReplaceFirst fieldName uk us) then
      some (jsReplaceFirst fieldName uk us)
    else suggestionAux fieldNames fieldName rest

/--
The spelling-variant suggestion loop of checkField over a given pool of
names (variable suggestion in the source, with the empty string rendered
as null): the loop over commonReplacements. It is computed from the pool
and the looked-up name only, independently of the edit-distance candidate
list. The program feeds it the pool jsObjectKeys of the fields array; see
suggestion below.
-/
def suggestionOver (fieldNames : List String) (fieldName : String) : Option String :=
  suggestionAux fieldNames fieldName commonReplacements

end CheckField

/-! ## Schema index model (graphql-js type map as built from introspection) -/

/-- The kind of a GraphQL type, as distinguished by graphql-js classes. -/
inductive TypeKind
  | scalar
  | object
  | interface
  | union
  | enum
  | inputObject
deriving DecidableEq

/--
A field descriptor as produced by getTypeFields: name, description and the
string form of the declared type (argument descriptors are elided; the
claims only concern names and membership).
-/
structure FieldDef where
  name : String
  description : String
  type : String
deriving DecidableEq

/-- One entry of the type map: name, kind, and field list for object types. -/
structure TypeDef where
  name : String
  kind : TypeKind
  fields : List FieldDef
deriving DecidableEq

/--
An introspection document (and equally the type map of the schema built
from it by buildClientSchema): the declared types in declaration order,
including the double-underscore introspection meta-types, with the top-level
schema marker present by construction of this type.
-/
structure IntrospectionDocument where
  types : List TypeDef
deriving DecidableEq

/--
The similar-fields computation of checkField as the program executes it:
fields is the ARRAY returned by getTypeFields, and the candidate pool is
fieldNames = Object.keys(fields), i.e. the index strings of that array,
not the field names. The pipeline then runs over those index strings.
-/
def CheckField.similarFields (fields : List FieldDef) (fieldName : String) : List String :=
  CheckField.similarFieldsOver (jsObjectKeys fields.length) fieldName

/--
The spelling-variant suggestion of checkField as the program executes it:
the membership test fieldNames.includes(substituted) consults
Object.keys(fields), the index strings of the array returned by
getTypeFields, not the field names.
-/
def CheckField.suggestion (fields : List FieldDef) (fieldName : String) : Option String :=
  CheckField.suggestionOver (jsObjectKeys fields.length) fieldName

namespace ShopifySchema

/--
The joined, truncated sample of known type names used in the error message
of getTypeFields: the names of the type map without the double-underscore
meta-types, joined with a comma and truncated by substring(0, 500).
-/
def availableTypesSample (doc : IntrospectionDocument) : String :=
  (String.intercalate (", ")
    ((doc.types.map TypeDef.name).filter fun n => !(jsStartsWith n ("__")))).take 500

/-- The unknown-type error message thrown by getTypeFields. -/
def typeNotFoundMessage (doc : IntrospectionDocument) (typeName : String) : String :=
  "Type \"" ++ typeName ++ "\" not found in schema. Available types: " ++
    availableTypesSample doc ++ "..."

/--
ShopifySchema.getTypeFields from src/tools/shopify-schema.ts, over a loaded
schema: look the name up in the type map; when absent, throw the error whose
message names the type and a truncated sample of known types; when present,
return the field descriptors for object types and the empty list for every
other kind (only GraphQLObjectType instances expose fields to this method).
-/
def getTypeFields (doc : IntrospectionDocument) (typeName : String) :
    Except String (List FieldDef) :=
  match doc.types.find? (fun t => t.name == typeName) with
  | none => .error (typeNotFoundMessage doc typeName)
  | some t => if t.kind == TypeKind.object then .ok t.fields else .ok []

/--
ShopifySchema.fieldExists from src/tools/shopify-schema.ts: call
getTypeFields inside try/catch; on success test membership of the field
name, on any error log and return false.
-/
def fieldExists (doc : IntrospectionDocument) (typeName fieldName : String) : Bool :=
  match getTypeFields doc typeName with
  | .ok fields => fields.any fun f => f.name == fieldName
  | .error _ => false

/--
ShopifySchema.getTypes from src/tools/shopify-schema.ts: the keys of the
type map, in declaration order, with names starting with a double
underscore filtered out by the method itself.
-/
def getTypes (doc : IntrospectionDocument) : List String :=
  (doc.types.map TypeDef.name).filter fun n => !(jsStartsWith n ("__"))

/--
The possible states of the persisted cache file as seen by the readers:
absent is modelled by Option.none outside; an existing file either fails
JSON.parse, parses to JSON lacking the truthy top-level __schema marker, or
parses to a well-formed introspection document. Writing a document with
JSON.stringify and reparsing it yields a structurally equal document, so a
file written from a document is modelled as valid with that document.
-/
inductive CacheFileContent
  | invalidJson
  | parsedWithoutSchema
  | valid (doc : IntrospectionDocument)
deriving DecidableEq

/--
The environment of one loadSchema call: the configured host name (the empty
string models a missing hostName), the access-token environment variable
(the empty string models an unset variable), the outcome the network
introspection pipeline would produce if invoked (introspectEndpoint,
JSON.parse, the __schema check and buildClientSchema, collapsed into one
Except), and whether a cache-file write or a corrupt-file unlink issued
during the call would succeed.
-/
structure LoaderEnv where
  hostName : String
  accessToken : String
  fetchResult : Except String IntrospectionDocument
  writeOk : Bool
  unlinkOk : Bool

/--
The mutable state touched by ShopifySchema.loadSchema: the static per-domain
memory cache entry for the configured host, the persisted cache file, and
the instance field rawSchema (this.schema mirrors it and is elided).
-/
structure LoaderState where
  memCache : Option IntrospectionDocument
  file : Option CacheFileContent
  rawSchema : Option IntrospectionDocument

/--
The observable outcome of one loadSchema call: the returned document or
thrown error, the state after the call, and how many network introspection
fetches the call performed.
-/
structure LoadOutcome where
  result : Except String IntrospectionDocument
  state : LoaderState
  fetches : Nat

/--
The fetch section of ShopifySchema.loadSchema (src/tools/shopify-schema.ts,
after the cache checks): throw before any network activity when the access
token is unset; otherwise perform the introspection fetch. On fetch success
the schema is built, the file write is attempted inside its own try/catch
whose failure is only logged, the memory cache entry is set, and the
document is returned. On fetch failure the error is rethrown.
-/
def fetchPhase (env : LoaderEnv) (st : LoaderState) : LoadOutcome :=
  if env.accessToken = "" then
    ⟨.error ("SHOPIFY_API_ACCESS_TOKEN environment variable is not set"), st, 0⟩
  else
    match env.fetchResult with
    | .error e => ⟨.error e, st, 1⟩
    | .ok doc =>
      ⟨.ok doc,
       { memCache := some doc,
         file := if env.writeOk then some (CacheFileContent.valid doc) else st.file,
         rawSchema := some doc }, 1⟩

/--
ShopifySchema.loadSchema(forceFetch) from src/tools/shopify-schema.ts:
throw when the host name is not configured; otherwise, unless forceFetch,
return the memory-cache entry when present; otherwise, unless forceFetch,
when the cache file exists try to read it: a valid document is stored in
memory and returned with no fetch, while a corrupt or marker-less file is
deleted (best effort) before falling through to the fetch section.
-/
def loadSchema (env : LoaderEnv) (st : LoaderState) (forceFetch : Bool) : LoadOutcome :=
  if env.hostName = "" then
    ⟨.error ("Shopify host name (storeDomain) is not configured on the server object."),
     st, 0⟩
  else
    match forceFetch, st.memCache with
    | false, some doc => ⟨.ok doc, { st with rawSchema := some doc }, 0⟩
    | _, _ =>
      match forceFetch, st.file with
      | false, some (CacheFileContent.valid doc) =>
        ⟨.ok doc, { st with rawSchema := some doc, memCache := some doc }, 0⟩
      | false, some _ =>
        fetchPhase env { st with file := if env.unlinkOk then none else st.file }
      | _, _ => fetchPhase env st

/--
Whether the persisted cache file holds a readable entry, in the sense of the
specification: the file exists, parses, and carries the top-level schema
marker, so that a non-forced load can use it without fetching.
-/
def isReadableEntry : Option CacheFileContent → Bool
  | some (CacheFileContent.valid _) => true
  | _ => false

end ShopifySchema

namespace LegacySchema

/--
The mutable state of the legacy ShopifySchema revision in
src/shopify-schema.ts: the instance fields this.schema and this.rawSchema
(collapsed into one, as they are set together) and the persisted cache file.
That revision has no static per-domain memory map.
-/
structure LegacyState where
  rawSchema : Option IntrospectionDocument
  file : Option ShopifySchema.CacheFileContent

/--
ShopifySchema.loadSchema(forceFetch) from src/shopify-schema.ts, the legacy
revision. Differences from the tools revision, directly from the source:
the in-memory check is this.schema; the whole body sits in one try/catch
whose catch logs and rethrows, so a cache file that fails JSON.parse (or
whose parse buildClientSchema rejects) aborts the call without deleting the
file and without fetching; and the cache-file write is not wrapped in its
own try/catch, so a write failure after a successful fetch is rethrown to
the caller even though this.schema and this.rawSchema are already set.
-/
def loadSchema (env : ShopifySchema.LoaderEnv) (st : LegacyState) (forceFetch : Bool) :
    Except String IntrospectionDocument × LegacyState × Nat :=
  match forceFetch, st.rawSchema with
  | false, some doc => (.ok doc, st, 0)
  | _, _ =>
    match forceFetch, st.file with
    | false, some (ShopifySchema.CacheFileContent.valid doc) =>
      (.ok doc, { st with rawSchema := some doc }, 0)
    | false, some _ =>
      (.error ("Error loading schema: cache file could not be parsed"), st, 0)
    | _, _ =>
      if env.hostName = "" then
        (.error ("Shopify host name is not defined"), st, 0)
      else
        match env.fetchResult with
        | .error e => (.error e, st, 1)
        | .ok doc =>
          if env.writeOk then
            (.ok doc, { rawSchema := some doc,
                        file := some (ShopifySchema.CacheFileContent.valid doc) }, 1)
          else
            (.error ("Error loading schema: cache file write failed"),
             { st with rawSchema := some doc }, 1)

end LegacySchema

/-! ## SchemaCache (src/tools/schema-cache.ts) -/

/-- A JSON value, the type of the loosely typed documents SchemaCache stores. -/
inductive Json
  | null
  | bool (b : Bool)
  | num (n : Int)
  | str (s : String)
  | arr (elems : List Json)
  | obj (fields : List (String × Json))

namespace SchemaCache

/--
The persisted cache file of SchemaCache as seen by its reader: an existing
file either fails JSON.parse or parses to a JSON value (SchemaCache performs
no further validation of what it parses). A file written from a value with
JSON.stringify reparses to a structurally equal value, so a written file is
modelled as parsed with the written value.
-/
inductive SCFile
  | invalidJson
  | parsed (j : Json)

/--
The state of the SchemaCache singleton: the in-memory cache field
(null modelled as none) and the persisted cache file (absent as none).
-/
structure SchemaCacheState where
  cache : Option Json
  file : Option SCFile

/--
SchemaCache.getSchema: return the in-memory value when present; otherwise,
when the cache file exists, parse it, store the parsed value in memory and
return it; a parse failure is caught, logged and reported as null, with the
file left in place; a missing file is reported as null.
-/
def getSchema (s : SchemaCacheState) : Option Json × SchemaCacheState :=
  match s.cache with
  | some c => (some c, s)
  | none =>
    match s.file with
    | none => (none, s)
    | some SCFile.invalidJson => (none, s)
    | some (SCFile.parsed j) => (some j, { s with cache := some j })

/--
SchemaCache.setSchema: set the in-memory cache, then attempt the file
write; a write failure is caught and logged, leaving the file as it was,
and is never reported to the caller.
-/
def setSchema (s : SchemaCacheState) (schema : Json) (writeOk : Bool) : SchemaCacheState :=
  let s1 : SchemaCacheState := { s with cache := some schema }
  if writeOk then { s1 with file := some (SCFile.parsed schema) } else s1

/-- Iterate the state transition of getSchema: n successive reads. -/
def readN : Nat → SchemaCacheState → SchemaCacheState
  | 0, s => s
  | n + 1, s => readN n (getSchema s).2

end SchemaCache

/-! ## Concrete inputs used by witnesses and counterexamples -/

/-- A one-type introspection document used as a concrete fetch result. -/
def doc0 : IntrospectionDocument :=
  ⟨[⟨"QueryRoot", TypeKind.object, []⟩]⟩

/-- A concrete document with an object type, its fields, and an enum type. -/
def docProduct : IntrospectionDocument :=
  ⟨[⟨"Product", TypeKind.object, [⟨"title", "", "String!"⟩, ⟨"vendor", "", "String"⟩]⟩,
    ⟨"OrderStatus", TypeKind.enum, []⟩]⟩

/-- A concrete document containing an introspection meta-type. -/
def docMeta : IntrospectionDocument :=
  ⟨[⟨"__Schema", TypeKind.object, []⟩, ⟨"Product", TypeKind.object, []⟩]⟩

/-- A fully configured environment whose fetch succeeds with doc0. -/
def env0 : ShopifySchema.LoaderEnv :=
  ⟨"example.myshopify.com", "token", Except.ok doc0, true, true⟩

/-- The configured environment whose cache-file write fails. -/
def envNoWrite : ShopifySchema.LoaderEnv :=
  ⟨"example.myshopify.com", "token", Except.ok doc0, false, true⟩

/-- The cold-start loader state: no memory entry, no file, no instance copy. -/
def st0 : ShopifySchema.LoaderState :=
  ⟨none, none, none⟩

/-- A loader state whose persisted cache file fails JSON.parse. -/
def stCorrupt : ShopifySchema.LoaderState :=
  ⟨none, some ShopifySchema.CacheFileContent.invalidJson, none⟩

/-- The fields array getTypeFields returns for the Order type of the claims. -/
def orderFields : List FieldDef :=
  [⟨"id", "", "ID!"⟩, ⟨"name", "", "String!"⟩,
   ⟨"createdAt", "", "DateTime!"⟩, ⟨"cancelledAt", "", "DateTime"⟩]

/-! ## Theorems -/

/-- Column 0 of the Levenshtein matrix holds its row index. -/
theorem levCell_zero_col (a b : List Char) (i : Nat) : levCell a b i 0 = i := by
  cases i <;> simp [levCell]

/-- Row 0 of the Levenshtein matrix holds its column index. -/
theorem levCell_zero_row (a b : List Char) (j : Nat) : levCell a b 0 j = j := by
  simp [levCell]

/--
The inner fill loop turns the tail of row i of the specification matrix
into the tail of row i + 1, column by column.
-/
theorem levRowAux_spec (a b : List Char) (bc : Char) (i : Nat) (hbc : b[i]? = some bc) :
    ∀ (as : List Char) (j : Nat), a.drop j = as →
      levRowAux bc as (levCell a b i j)
        ((List.range' (j + 1) as.length).map (levCell a b i))
        (levCell a b (i + 1) j)
      = (List.range' (j + 1) as.length).map (levCell a b (i + 1)) := by
  intro as
  induction as with
  | nil =>
    intro j h
    simp [levRowAux]
  | cons ac arest ih =>
    intro j h
    have haj : a[j]? = some ac := by
      have h0 := List.getElem?_drop a j 0
      rw [h] at h0
      simpa using h0.symm
    have hdrop : a.drop (j + 1) = arest := by
      have h2 := List.drop_drop 1 j a
      rw [← h2, h]
      rfl
    have hcur : levCell a b (i + 1) (j + 1)
        = min (levCell a b i (j + 1) + 1)
            (min (levCell a b (i + 1) j + 1)
              (levCell a b i j + if ac = bc then 0 else 1)) := by
      simp [levCell, haj, hbc]
    simp only [List.length_cons, List.range'_succ, List.map_cons, levRowAux]
    rw [← hcur]
    exact congrArg (levCell a b (i + 1) (j + 1) :: ·) (ih (j + 1) hdrop)

/-- One call of levRow turns row i of the specification matrix into row i + 1. -/
theorem levRow_spec (a b : List Char) (bc : Char) (i : Nat) (hbc : b[i]? = some bc) :
    levRow bc a ((List.range (a.length + 1)).map (levCell a b i))
      = (List.range (a.length + 1)).map (levCell a b (i + 1)) := by
  have hr : List.range (a.length + 1) = 0 :: List.range' 1 a.length := by
    rw [List.range_eq_range', List.range'_succ]
  rw [hr]
  simp only [List.map_cons, levRow]
  have h0 : levCell a b i 0 = i := levCell_zero_col a b i
  have h1 : levCell a b (i + 1) 0 = i + 1 := levCell_zero_col a b (i + 1)
  have hrow := levRowAux_spec a b bc i hbc a 0 rfl
  simp only [Nat.zero_add] at hrow
  rw [h0, h1] at hrow
  rw [h0, h1]
  exact congrArg ((i + 1) :: ·) hrow

/--
Folding the rows over a suffix of b carries row i of the specification
matrix to the final row.
-/
theorem levRows_spec (a b : List Char) :
    ∀ (bs : List Char) (i : Nat), b.drop i = bs →
      levRows a bs ((List.range (a.length + 1)).map (levCell a b i))
        = (List.range (a.length + 1)).map (levCell a b (i + bs.length)) := by
  intro bs
  induction bs with
  | nil =>
    intro i h
    simp [levRows]
  | cons bc brest ih =>
    intro i h
    have hbc : b[i]? = some bc := by
      have h0 := List.getElem?_drop b i 0
      rw [h] at h0
      simpa using h0.symm
    have hdrop : b.drop (i + 1) = brest := by
      have h2 := List.drop_drop 1 i b
      rw [← h2, h]
      rfl
    simp only [levRows, List.length_cons]
    rw [levRow_spec a b bc i hbc, ih (i + 1) hdrop]
    have harith : i + 1 + brest.length = i + (brest.length + 1) := by omega
    rw [harith]

/--
levenshteinDistance computes the bottom-right cell of the classic
dynamic-programming Levenshtein matrix.
-/
theorem levenshteinDistance_eq_levCell (a b : String) :
    levenshteinDistance a b
      = levCell a.toList b.toList b.toList.length a.toList.length := by
  unfold levenshteinDistance
  have hrow0 : (List.range (a.toList.length + 1)).map (levCell a.toList b.toList 0)
      = List.range (a.toList.length + 1) := by
    rw [List.map_congr_left fun x _ => levCell_zero_row a.toList b.toList x, List.map_id']
  rw [← hrow0, levRows_spec a.toList b.toList b.toList 0 rfl]
  simp only [Nat.zero_add]
  rw [List.range_succ, List.map_append]
  simp [List.getLastD_concat]

/--
Claim C3: the edit-distance function computes the classic
dynamic-programming Levenshtein distance, with cost 1 for insertion,
deletion and substitution and cost 0 for a matching character, the result
being the bottom-right cell of the (len b + 1) x (len a + 1) matrix whose
row 0 and column 0 are initialized to their index values; in particular
distance of kitten and sitting is 3, of a and a is 0, and of the empty
string and abc is 3.
-/
theorem levenshteinDistance_spec :
    (∀ a b : String, levenshteinDistance a b
        = levCell a.toList b.toList b.toList.length a.toList.length)
    ∧ levenshteinDistance ("kitten") ("sitting") = 3
    ∧ levenshteinDistance ("a") ("a") = 0
    ∧ levenshteinDistance ("") ("abc") = 3 :=
  ⟨levenshteinDistance_eq_levCell, by decide, by decide, by decide⟩

/--
Every record surviving the filter, sort and cap of the similar-fields
pipeline is a field name of the type paired with its case-insensitive
Levenshtein distance from the looked-up name, and that distance is at
most 3.
-/
theorem CheckField.mem_similar_pipeline (names : List String) (f : String) (x : String × Nat)
    (hx : x ∈ (((names.map fun name =>
          (name, levenshteinDistance (jsToLowerCase name) (jsToLowerCase f))).filter
        fun p => decide (p.2 ≤ 3)).insertionSort CheckField.distanceLE).take 5) :
    x.1 ∈ names ∧ x.2 = levenshteinDistance (jsToLowerCase x.1) (jsToLowerCase f) ∧ x.2 ≤ 3 := by
  have h1 := List.mem_of_mem_take hx
  have h2 := (List.perm_insertionSort CheckField.distanceLE _).mem_iff.mp h1
  rw [List.mem_filter] at h2
  obtain ⟨hmem, hle⟩ := h2
  rw [List.mem_map] at hmem
  obtain ⟨n, hn, heq⟩ := hmem
  subst heq
  exact ⟨hn, rfl, by simpa using hle⟩

/--
When the pattern occurs in the subject, the result of replacing its first
occurrence contains the replacement as a substring.
-/
theorem replaceFirst_contains_rep :
    ∀ (s pat rep : List Char), pat <:+: s → rep <:+: replaceFirstAux pat rep s := by
  intro s
  induction s with
  | nil =>
    intro pat rep h
    have hp : pat = [] := List.sublist_nil.mp h.sublist
    subst hp
    simp [replaceFirstAux]
  | cons c rest ih =>
    intro pat rep h
    by_cases hpre : pat <+: (c :: rest)
    · simp only [replaceFirstAux, if_pos hpre]
      exact ⟨[], (c :: rest).drop pat.length, rfl⟩
    · have hrest : pat <:+: rest := by
        rcases List.infix_cons_iff.mp h with hp | hi
        · exact absurd hp hpre
        · exact hi
      obtain ⟨u, v, huv⟩ := ih pat rep hrest
      simp only [replaceFirstAux, if_neg hpre]
      exact ⟨c :: u, v, by simp [huv]⟩

/--
Every character produced by the decimal digit expansion is one of the ten
decimal digit characters, for any fuel.
-/
theorem mem_decimalDigitsAux_digit :
    ∀ (fuel n : Nat) (c : Char), c ∈ decimalDigitsAux fuel n → c ∈ digitChars := by
  intro fuel
  induction fuel with
  | zero =>
    intro n c hc
    simp [decimalDigitsAux] at hc
  | succ fuel ih =>
    intro n c hc
    simp only [decimalDigitsAux] at hc
    by_cases h10 : n < 10
    · rw [if_pos h10] at hc
      have hceq : c = Nat.digitChar n := by simpa using hc
      subst hceq
      interval_cases n <;> decide
    · rw [if_neg h10] at hc
      rcases List.mem_append.mp hc with h1 | h2
      · exact ih (n / 10) c h1
      · have hceq : c = Nat.digitChar (n % 10) := by simpa using h2
        subst hceq
        have hlt : n % 10 < 10 := Nat.mod_lt n (by omega)
        revert hlt
        generalize n % 10 = m
        intro hlt
        interval_cases m <;> decide

/--
Claim C4 (code bug): checkField derives its candidate pool from
Object.keys applied to the ARRAY returned by getTypeFields, so every
candidate it can ever produce is an array index string, never a field
name; at the claimed instance (type Order with field cancelledAt, lookup
canceledAt, which is not a field of the type) the program yields the empty
candidate list and in particular never suggests cancelledAt, although the
same pipeline applied to the actual field names, as the claim and the
inline comment of the code intend, returns exactly cancelledAt.
-/
theorem similarFields_index_strings :
    (∀ (fields : List FieldDef) (fieldName s : String),
        s ∈ CheckField.similarFields fields fieldName →
        ∃ i, i < fields.length ∧ s = jsString i)
    ∧ CheckField.similarFields orderFields ("canceledAt") = []
    ∧ "cancelledAt" ∉ CheckField.similarFields orderFields ("canceledAt")
    ∧ (∀ fd ∈ orderFields, fd.name ≠ "canceledAt")
    ∧ CheckField.similarFieldsOver (orderFields.map FieldDef.name) ("canceledAt")
        = ["cancelledAt"] := by
  refine ⟨?_, by decide, by decide, by decide, by decide⟩
  intro fields f s hs
  simp only [CheckField.similarFields, CheckField.similarFieldsOver] at hs
  rw [List.mem_map] at hs
  obtain ⟨x, hx, rfl⟩ := hs
  have h := CheckField.mem_similar_pipeline (jsObjectKeys fields.length) f x hx
  have hmem := h.1
  simp only [jsObjectKeys] at hmem
  obtain ⟨i, hi, heq⟩ := List.mem_map.mp hmem
  exact ⟨i, List.mem_range.mp hi, heq.symm⟩

/--
Witness for claim C4: a candidate the program actually produces (looking up
the one-character name 1 over the four-element Order fields array) is an
index string of the array.
-/
theorem similarFields_index_strings_witness :
    ∃ i, i < orderFields.length ∧ "1" = jsString i :=
  similarFields_index_strings.1 orderFields ("1") ("1") (by decide)

/--
Soundness of the spelling-variant loop over any table: a produced
suggestion is an actual field name obtained by substituting one member of
some table pair, contained in the looked-up name, by the other member.
-/
theorem CheckField.suggestionAux_sound (names : List String) (f : String) :
    ∀ (table : List (String × String)) (s : String),
      CheckField.suggestionAux names f table = some s →
      s ∈ names ∧ ∃ p ∈ table,
        ((jsIncludes f p.1 = true ∧ s = jsReplaceFirst f p.1 p.2)
          ∨ (jsIncludes f p.2 = true ∧ s = jsReplaceFirst f p.2 p.1)) := by
  intro table
  induction table with
  | nil =>
    intro s h
    simp [CheckField.suggestionAux] at h
  | cons q rest ih =>
    intro s h
    obtain ⟨us, uk⟩ := q
    simp only [CheckField.suggestionAux] at h
    split at h
    case isTrue h1 =>
      obtain ⟨hinc, hmem⟩ := Bool.and_eq_true_iff.mp h1
      obtain rfl : jsReplaceFirst f us uk = s := Option.some.injEq _ _ ▸ h
      exact ⟨List.elem_iff.mp hmem,
        ⟨(us, uk), List.mem_cons_self _ _, Or.inl ⟨hinc, rfl⟩⟩⟩
    case isFalse h1 =>
      split at h
      case isTrue h2 =>
        obtain ⟨hinc, hmem⟩ := Bool.and_eq_true_iff.mp h2
        obtain rfl : jsReplaceFirst f uk us = s := Option.some.injEq _ _ ▸ h
        exact ⟨List.elem_iff.mp hmem,
          ⟨(us, uk), List.mem_cons_self _ _, Or.inr ⟨hinc, rfl⟩⟩⟩
      case isFalse h2 =>
        obtain ⟨hm, p, hp, hcase⟩ := ih s h
        exact ⟨hm, p, List.mem_cons_of_mem _ hp, hcase⟩


/--
Claim C5 (code bug): the membership pool in checkField consists of the
array index strings from Object.keys(fields), which are digit-only, while
a name substituted from the US/UK table always contains the substituted
member and hence a non-digit character; so the membership test never
succeeds and the program never produces any spelling suggestion, for any
fields array and any looked-up name. The same loop applied to the actual
field names, as the claim and the specification intend, produces the
claimed canceledAt to cancelledAt suggestion.
-/
theorem suggestion_never_fires :
    (∀ (fields : List FieldDef) (fieldName : String),
        CheckField.suggestion fields fieldName = none)
    ∧ CheckField.suggestion orderFields ("canceledAt") = none
    ∧ CheckField.suggestionOver (orderFields.map FieldDef.name) ("canceledAt")
        = some ("cancelledAt") := by
  refine ⟨?_, by decide, by decide⟩
  intro fields f
  cases h : CheckField.suggestion fields f with
  | none => rfl
  | some s =>
    exfalso
    have h2 : CheckField.suggestionAux (jsObjectKeys fields.length) f
        CheckField.commonReplacements = some s := h
    obtain ⟨hmem, p, hp, hcase⟩ :=
      CheckField.suggestionAux_sound (jsObjectKeys fields.length) f
        CheckField.commonReplacements s h2
    have hdig : ∀ c ∈ s.toList, c ∈ digitChars := by
      simp only [jsObjectKeys] at hmem
      obtain ⟨i, _, heq⟩ := List.mem_map.mp hmem
      intro c hc
      rw [← heq] at hc
      exact mem_decimalDigitsAux_digit (i + 1) i c hc
    have htab : ∀ q ∈ CheckField.commonReplacements,
        (∃ c ∈ q.1.toList, c ∉ digitChars) ∧ (∃ c ∈ q.2.toList, c ∉ digitChars) := by
      decide
    rcases hcase with ⟨hinc, hrepl⟩ | ⟨hinc, hrepl⟩
    · obtain ⟨c, hc, hcnd⟩ := (htab p hp).2
      have hrep : p.2.toList <:+: s.toList := by
        rw [hrepl]
        exact replaceFirst_contains_rep f.toList p.1.toList p.2.toList
          (of_decide_eq_true hinc)
      exact hcnd (hdig c (hrep.subset hc))
    · obtain ⟨c, hc, hcnd⟩ := (htab p hp).1
      have hrep : p.1.toList <:+: s.toList := by
        rw [hrepl]
        exact replaceFirst_contains_rep f.toList p.2.toList p.1.toList
          (of_decide_eq_true hinc)
      exact hcnd (hdig c (hrep.subset hc))

/--
Claim C6: fieldExists is total and fail-soft: it is a Boolean-valued
function on every type name and field name; it returns true exactly when
getTypeFields succeeds for the type and the field name is a member of the
returned field list, and it returns false whenever the type lookup fails.
-/
theorem fieldExists_spec :
    ∀ (doc : IntrospectionDocument) (typeName fieldName : String),
      (ShopifySchema.fieldExists doc typeName fieldName = true ↔
        ∃ fs, ShopifySchema.getTypeFields doc typeName = .ok fs
          ∧ ∃ fd ∈ fs, fd.name = fieldName)
      ∧ (∀ e, ShopifySchema.getTypeFields doc typeName = .error e →
          ShopifySchema.fieldExists doc typeName fieldName = false) := by
  intro doc typeName fieldName
  constructor
  · constructor
    · intro h
      unfold ShopifySchema.fieldExists at h
      split at h
      case h_1 fs heq =>
        rw [List.any_eq_true] at h
        obtain ⟨fd, hfd, hname⟩ := h
        exact ⟨fs, heq, fd, hfd, by simpa using hname⟩
      case h_2 => exact absurd h (by simp)
    · rintro ⟨fs, heq, fd, hfd, hname⟩
      unfold ShopifySchema.fieldExists
      rw [heq]
      exact List.any_eq_true.mpr ⟨fd, hfd, by simpa using hname⟩
  · intro e he
    unfold ShopifySchema.fieldExists
    rw [he]

/--
Witness for claim C6: at the concrete document, a failing type lookup makes
fieldExists report false.
-/
theorem fieldExists_spec_witness :
    ShopifySchema.fieldExists docProduct ("NoSuchType") ("title") = false :=
  (fieldExists_spec docProduct ("NoSuchType") ("title")).2
    (ShopifySchema.typeNotFoundMessage docProduct ("NoSuchType")) (by rfl)

/--
Claim C7: for every type name absent from the loaded schema index,
getTypeFields fails with an error whose message contains the offending type
name and the truncated sample of known type names; for every type name
present but not of object kind, getTypeFields returns the empty sequence
rather than failing.
-/
theorem getTypeFields_spec :
    ∀ (doc : IntrospectionDocument) (typeName : String),
      (doc.types.find? (fun t => t.name == typeName) = none →
        ShopifySchema.getTypeFields doc typeName
            = .error (ShopifySchema.typeNotFoundMessage doc typeName)
          ∧ typeName.toList <:+: (ShopifySchema.typeNotFoundMessage doc typeName).toList
          ∧ (ShopifySchema.availableTypesSample doc).toList <:+:
              (ShopifySchema.typeNotFoundMessage doc typeName).toList)
      ∧ (∀ t, doc.types.find? (fun t => t.name == typeName) = some t →
          t.kind ≠ TypeKind.object →
          ShopifySchema.getTypeFields doc typeName = .ok []) := by
  intro doc typeName
  refine ⟨?_, ?_⟩
  · intro hnone
    refine ⟨?_, ?_, ?_⟩
    · unfold ShopifySchema.getTypeFields
      rw [hnone]
    · exact ⟨("Type \"").toList,
        ("\" not found in schema. Available types: "
          ++ ShopifySchema.availableTypesSample doc ++ "...").toList,
        by simp [ShopifySchema.typeNotFoundMessage, List.append_assoc]⟩
    · exact ⟨("Type \"" ++ typeName ++ "\" not found in schema. Available types: ").toList,
        ("...").toList,
        by simp [ShopifySchema.typeNotFoundMessage, List.append_assoc]⟩
  · intro t hfind hkind
    unfold ShopifySchema.getTypeFields
    rw [hfind]
    simp [beq_eq_false_iff_ne.mpr hkind]

/--
Witness for claim C7: at the concrete document, the lookup of NoSuchType
fails with a message containing the offending name and the truncated type
sample.
-/
theorem getTypeFields_spec_witness :
    ShopifySchema.getTypeFields docProduct ("NoSuchType")
        = .error (ShopifySchema.typeNotFoundMessage docProduct ("NoSuchType"))
      ∧ ("NoSuchType").toList <:+:
          (ShopifySchema.typeNotFoundMessage docProduct ("NoSuchType")).toList
      ∧ (ShopifySchema.availableTypesSample docProduct).toList <:+:
          (ShopifySchema.typeNotFoundMessage docProduct ("NoSuchType")).toList :=
  (getTypeFields_spec docProduct ("NoSuchType")).1 (by decide)

/--
Counterexample to claim C8 as stated: the type map of a document declaring
the introspection meta-type named with a double underscore contains that
name, yet getTypes omits it from its result, so the result is not all
entries of the index and the meta-types are removed by the method itself,
not by its callers.
-/
theorem getTypes_omits_meta :
    "__Schema" ∈ docMeta.types.map TypeDef.name
    ∧ "__Schema" ∉ ShopifySchema.getTypes docMeta := by
  decide

/--
Claim C8, amended: getTypes returns the entries of the type map in the
order the introspection document declared them (an order-preserving
sublist, not sorted), omitting exactly the double-underscore-prefixed
introspection meta-types, which the method itself filters out; every other
entry appears in the result.
-/
theorem getTypes_spec :
    ∀ doc : IntrospectionDocument,
      (ShopifySchema.getTypes doc).Sublist (doc.types.map TypeDef.name)
      ∧ ∀ n, (n ∈ ShopifySchema.getTypes doc ↔
          n ∈ doc.types.map TypeDef.name ∧ jsStartsWith n ("__") = false) := by
  intro doc
  constructor
  · exact List.filter_sublist _
  · intro n
    unfold ShopifySchema.getTypes
    rw [List.mem_filter]
    simp

/--
Counterexample to claim C1 as stated: in the legacy revision of loadSchema
(src/shopify-schema.ts), a call with no in-memory schema and no readable
persisted cache entry (the file exists but fails to parse) performs zero
network fetches: it aborts with the rethrown parse error instead of
falling back to a fetch.
-/
theorem legacyLoadSchema_corrupt_no_fetch :
    (LegacySchema.loadSchema env0
        ⟨none, some ShopifySchema.CacheFileContent.invalidJson⟩ false).2.2 = 0
    ∧ (LegacySchema.loadSchema env0
        ⟨none, some ShopifySchema.CacheFileContent.invalidJson⟩ false).1
        = .error ("Error loading schema: cache file could not be parsed")
    ∧ ShopifySchema.isReadableEntry
        (some ShopifySchema.CacheFileContent.invalidJson) = false :=
  ⟨rfl, rfl, rfl⟩

/--
Claim C1, amended: for ShopifySchema.loadSchema in
src/tools/shopify-schema.ts, with host name and access token configured, a
call performs a network introspection fetch if and only if forceFetch is
true or there is neither a memory-cache entry nor a readable persisted
cache entry; starting cold, one call performs exactly one fetch and a
subsequent call performs zero. (The legacy revision in
src/shopify-schema.ts instead aborts without fetching when the persisted
file exists but is unreadable, per the counterexample.)
-/
theorem loadSchema_fetch_iff :
    ∀ (env : ShopifySchema.LoaderEnv) (st : ShopifySchema.LoaderState) (force : Bool),
      env.hostName ≠ "" → env.accessToken ≠ "" →
      ((ShopifySchema.loadSchema env st force).fetches = 1 ↔
        (force = true ∨
          (st.memCache = none ∧ ShopifySchema.isReadableEntry st.file = false)))
      ∧ (∀ d, env.fetchResult = .ok d → st.memCache = none → st.file = none →
          (ShopifySchema.loadSchema env st false).fetches = 1
          ∧ (ShopifySchema.loadSchema env
              (ShopifySchema.loadSchema env st false).state false).fetches = 0) := by
  intro env st force h1 h2
  constructor
  · cases force with
    | false =>
      cases hmem : st.memCache with
      | some doc =>
        simp [ShopifySchema.loadSchema, h1, hmem]
      | none =>
        cases hfile : st.file with
        | none =>
          simp only [ShopifySchema.loadSchema, ShopifySchema.fetchPhase, h1, h2,
            hmem, hfile, if_neg, ShopifySchema.isReadableEntry]
          cases env.fetchResult <;> simp
        | some c =>
          cases c <;>
              simp only [ShopifySchema.loadSchema, ShopifySchema.fetchPhase, h1, h2,
                hmem, hfile, if_neg, ShopifySchema.isReadableEntry] <;>
            cases env.fetchResult <;> simp [h2]
    | true =>
      simp only [ShopifySchema.loadSchema, ShopifySchema.fetchPhase, h1, h2, if_neg]
      cases env.fetchResult <;> simp [h1, h2]
  · intro d hfetch hmem hfile
    constructor
    · simp [ShopifySchema.loadSchema, ShopifySchema.fetchPhase, h1, h2, hmem, hfile, hfetch]
    · simp [ShopifySchema.loadSchema, ShopifySchema.fetchPhase, h1, h2, hmem, hfile, hfetch]

/--
Witness for the amended claim C1: the cold start with the concrete
configured environment fetches once, and the follow-up call fetches zero
times.
-/
theorem loadSchema_fetch_iff_witness :
    (ShopifySchema.loadSchema env0 st0 false).fetches = 1
    ∧ (ShopifySchema.loadSchema env0
        (ShopifySchema.loadSchema env0 st0 false).state false).fetches = 0 :=
  (loadSchema_fetch_iff env0 st0 false (by decide) (by decide)).2 doc0 rfl rfl rfl

/--
Counterexample to claim C2 as stated: SchemaCache.getSchema, one of the
two cited cache reads, reports a corrupt persisted file as absent but does
not delete it and leaves its state entirely unchanged, so the very next
read retries the same parse failure.
-/
theorem schemaCache_corrupt_not_deleted :
    (SchemaCache.getSchema ⟨none, some SchemaCache.SCFile.invalidJson⟩).1 = none
    ∧ (SchemaCache.getSchema ⟨none, some SchemaCache.SCFile.invalidJson⟩).2.file
        = some SchemaCache.SCFile.invalidJson
    ∧ (SchemaCache.getSchema
        (SchemaCache.getSchema ⟨none, some SchemaCache.SCFile.invalidJson⟩).2).1 = none
    ∧ (SchemaCache.getSchema
        (SchemaCache.getSchema ⟨none, some SchemaCache.SCFile.invalidJson⟩).2).2.file
        = some SchemaCache.SCFile.invalidJson :=
  ⟨rfl, rfl, rfl, rfl⟩

/--
Claim C2, amended: in ShopifySchema.loadSchema (src/tools/shopify-schema.ts),
a persisted cache file that is unparseable or lacks the top-level schema
marker is treated as absent and deleted (best effort), after which the call
falls back to a network fetch; the state after the call holds the fetched
document in memory and a file that is either rewritten valid or absent, so
no later read of that component retries the parse failure.
SchemaCache.getSchema, by contrast, treats corrupt content as absent
without deleting the file, leaving its state unchanged, so its later reads
do retry the same parse failure.
-/
theorem loadSchema_corrupt_selfheal :
    ∀ (env : ShopifySchema.LoaderEnv) (st : ShopifySchema.LoaderState)
      (c : ShopifySchema.CacheFileContent) (d : IntrospectionDocument),
      env.hostName ≠ "" → env.accessToken ≠ "" →
      env.unlinkOk = true → env.fetchResult = .ok d →
      st.memCache = none → st.file = some c →
      (c = ShopifySchema.CacheFileContent.invalidJson
        ∨ c = ShopifySchema.CacheFileContent.parsedWithoutSchema) →
      (ShopifySchema.loadSchema env st false).fetches = 1
      ∧ (ShopifySchema.loadSchema env st false).result = .ok d
      ∧ (ShopifySchema.loadSchema env st false).state.memCache = some d
      ∧ ((ShopifySchema.loadSchema env st false).state.file = none
          ∨ (ShopifySchema.loadSchema env st false).state.file
              = some (ShopifySchema.CacheFileContent.valid d))
      ∧ (∀ s : SchemaCache.SchemaCacheState, s.cache = none →
          s.file = some SchemaCache.SCFile.invalidJson →
          (SchemaCache.getSchema s).1 = none ∧ (SchemaCache.getSchema s).2 = s) := by
  intro env st c d h1 h2 hunlink hfetch hmem hfile hc
  have hload : ∀ p, p = ShopifySchema.loadSchema env st false →
      p.fetches = 1 ∧ p.result = .ok d ∧ p.state.memCache = some d
      ∧ (p.state.file = none
          ∨ p.state.file = some (ShopifySchema.CacheFileContent.valid d)) := by
    intro p hp
    rcases hc with rfl | rfl <;>
        (subst hp
         simp only [ShopifySchema.loadSchema, ShopifySchema.fetchPhase, h1, h2,
           hunlink, hfetch, hmem, hfile, if_neg, if_true]) <;>
      cases env.writeOk <;> simp
  obtain ⟨ha, hb, hcc, hd⟩ := hload _ rfl
  refine ⟨ha, hb, hcc, hd, ?_⟩
  intro s hsc hsf
  simp [SchemaCache.getSchema, hsc, hsf]

/--
Witness for the amended claim C2: with the concrete corrupt state, the
load fetches once and returns the fetched document.
-/
theorem loadSchema_corrupt_selfheal_witness :
    (ShopifySchema.loadSchema env0 stCorrupt false).fetches = 1
    ∧ (ShopifySchema.loadSchema env0 stCorrupt false).result = .ok doc0 := by
  have h := loadSchema_corrupt_selfheal env0 stCorrupt
    ShopifySchema.CacheFileContent.invalidJson doc0
    (by decide) (by decide) rfl rfl rfl rfl (Or.inl rfl)
  exact ⟨h.1, h.2.1⟩

/--
Counterexample to claim C9 as stated: in the legacy revision of loadSchema
(src/shopify-schema.ts) the cache-file write is inside the one big
try/catch whose catch rethrows, so with a successful fetch and a failing
write the call performs the fetch, stores the document in the in-memory
fields, and nevertheless rejects with the write error instead of returning
the fetched document.
-/
theorem legacyLoadSchema_write_failure_fatal :
    (LegacySchema.loadSchema envNoWrite ⟨none, none⟩ false).2.2 = 1
    ∧ (LegacySchema.loadSchema envNoWrite ⟨none, none⟩ false).2.1.rawSchema = some doc0
    ∧ (LegacySchema.loadSchema envNoWrite ⟨none, none⟩ false).1
        = .error ("Error loading schema: cache file write failed") :=
  ⟨rfl, rfl, rfl⟩

/--
Claim C9, amended: in ShopifySchema.loadSchema (src/tools/shopify-schema.ts)
and in SchemaCache.setSchema, a failure while writing the freshly fetched
document to the persistent cache store is non-fatal: whenever a call
performs a fetch that succeeds and the write fails, loadSchema still
returns the fetched document, the memory caches hold it, and a later call
returns it with zero fetches; SchemaCache.setSchema likewise keeps the
value in memory when its write fails. (In the legacy src/shopify-schema.ts
revision the write failure is rethrown to the caller, per the
counterexample.)
-/
theorem loadSchema_write_failure_nonfatal :
    ∀ (env : ShopifySchema.LoaderEnv) (st : ShopifySchema.LoaderState) (force : Bool)
      (d : IntrospectionDocument),
      env.hostName ≠ "" → env.accessToken ≠ "" →
      env.fetchResult = .ok d → env.writeOk = false →
      (ShopifySchema.loadSchema env st force).fetches = 1 →
      (ShopifySchema.loadSchema env st force).result = .ok d
      ∧ (ShopifySchema.loadSchema env st force).state.memCache = some d
      ∧ (ShopifySchema.loadSchema env st force).state.rawSchema = some d
      ∧ (ShopifySchema.loadSchema env
          (ShopifySchema.loadSchema env st force).state false).result = .ok d
      ∧ (ShopifySchema.loadSchema env
          (ShopifySchema.loadSchema env st force).state false).fetches = 0
      ∧ (∀ (s : SchemaCache.SchemaCacheState) (j : Json),
          (SchemaCache.setSchema s j false).cache = some j) := by
  intro env st force d h1 h2 hfetch hwrite hone
  refine ⟨?_, ?_, ?_, ?_, ?_, ?_⟩ <;>
    first
      | (intro s j; simp [SchemaCache.setSchema])
      | (cases force with
         | true =>
           simp [ShopifySchema.loadSchema, ShopifySchema.fetchPhase, h1, h2, hfetch, hwrite]
         | false =>
           cases hmem : st.memCache with
           | some doc =>
             rw [show (ShopifySchema.loadSchema env st false).fetches = 0 by
               simp [ShopifySchema.loadSchema, h1, hmem]] at hone
             exact absurd hone (by simp)
           | none =>
             cases hfile : st.file with
             | none =>
               simp [ShopifySchema.loadSchema, ShopifySchema.fetchPhase, h1, h2,
                 hfetch, hwrite, hmem, hfile]
             | some c =>
               cases c with
               | invalidJson =>
                 simp [ShopifySchema.loadSchema, ShopifySchema.fetchPhase, h1, h2,
                   hfetch, hwrite, hmem, hfile]
               | parsedWithoutSchema =>
                 simp [ShopifySchema.loadSchema, ShopifySchema.fetchPhase, h1, h2,
                   hfetch, hwrite, hmem, hfile]
               | valid doc =>
                 rw [show (ShopifySchema.loadSchema env st false).fetches = 0 by
                   simp [ShopifySchema.loadSchema, h1, hmem, hfile]] at hone
                 exact absurd hone (by simp))

/--
Witness for the amended claim C9: with the concrete environment whose write
fails, the forced load still returns the fetched document and the memory
cache holds it.
-/
theorem loadSchema_write_failure_nonfatal_witness :
    (ShopifySchema.loadSchema envNoWrite st0 true).result = .ok doc0
    ∧ (ShopifySchema.loadSchema envNoWrite st0 true).state.memCache = some doc0 := by
  have h := loadSchema_write_failure_nonfatal envNoWrite st0 true doc0
    (by decide) (by decide) rfl rfl (by rfl)
  exact ⟨h.1, h.2.1⟩

/--
A state whose in-memory cache holds a document keeps holding it across any
number of getSchema reads.
-/
theorem SchemaCache.readN_cache (doc : Json) :
    ∀ (n : Nat) (s : SchemaCache.SchemaCacheState), s.cache = some doc →
      (SchemaCache.readN n s).cache = some doc := by
  intro n
  induction n with
  | zero =>
    intro s h
    exact h
  | succ n ih =>
    intro s h
    simp only [SchemaCache.readN]
    apply ih
    simp [SchemaCache.getSchema, h]

/--
Claim C10: writing a document to the cache store with setSchema and then
reading with getSchema, in any later state of the same process reached by
further reads, returns a document structurally equal to the one written,
whether or not the file write succeeded; and a cold read of a state whose
file reparses to the written document returns that document (the on-disk
round trip through serialization and reparsing).
-/
theorem schemaCache_roundtrip :
    ∀ (s : SchemaCache.SchemaCacheState) (doc : Json) (writeOk : Bool) (n : Nat),
      (SchemaCache.getSchema
          (SchemaCache.readN n (SchemaCache.setSchema s doc writeOk))).1 = some doc
      ∧ (SchemaCache.getSchema
          ⟨none, some (SchemaCache.SCFile.parsed doc)⟩).1 = some doc := by
  intro s doc writeOk n
  constructor
  · have h1 : (SchemaCache.setSchema s doc writeOk).cache = some doc := by
      cases writeOk <;> simp [SchemaCache.setSchema]
    have h2 := SchemaCache.readN_cache doc n _ h1
    simp [SchemaCache.getSchema, h2]
  · rfl
